import Mathlib

/-!
Verification development for the pricetracker repository.

The definitions below are a shallow embedding of the TypeScript source:
  - src/services/scraper.ts   (price extraction, availability classification,
    JSON-LD search, the rendered-then-static orchestrator)
  - src/services/scheduler.ts (per-monitor check cycle, target-price dedup)
  - src/services/notifications.ts (dispatch batch, immediate notification)

JavaScript numbers are modelled as rationals (ℚ), NaN as the value none of
Option ℚ, null/undefined as none of the relevant Option type, and database
timestamps as a logical clock (ℕ) threaded through every write, which is
faithful for every comparison the source performs (strict ordering of
creation instants).  Strings are modelled as Lean strings / lists of
characters.
-/

/-! ## JavaScript primitives -/

/-- Characters kept by the source replace of everything but digits, dots and
commas (match.replace in scrapeWithCheerio). -/
def keepNumChars (l : List Char) : List Char :=
  l.filter (fun c => c.isDigit || c == '.' || c == ',')

/-- Comma stripping, modelling s.replace of all commas by the empty string. -/
def stripCommas (l : List Char) : List Char :=
  l.filter (fun c => c != ',')

def digitVal (c : Char) : ℕ := c.toNat - '0'.toNat

def natOfDigits (l : List Char) : ℕ :=
  l.foldl (fun acc c => 10 * acc + digitVal c) 0

/-- The JavaScript parseFloat builtin on a character list: leading whitespace,
optional sign, decimal digits, optional fraction, optional exponent; any
trailing garbage is ignored.  Returns none exactly when parseFloat returns
NaN (no digit could be consumed).  The non-numeral forms accepted by the
runtime (the word Infinity) do not occur in this code base and map to none. -/
def parseFloatQ (l : List Char) : Option ℚ :=
  let l1 := l.dropWhile Char.isWhitespace
  let (sign, l2) : ℚ × List Char :=
    match l1 with
    | '-' :: t => (-1, t)
    | '+' :: t => (1, t)
    | _ => (1, l1)
  let (intPart, l3) := l2.span Char.isDigit
  let (fracPart, l4) : List Char × List Char :=
    match l3 with
    | '.' :: t => t.span Char.isDigit
    | _ => ([], l3)
  if intPart.isEmpty && fracPart.isEmpty then none
  else
    let mantissa : ℚ :=
      (natOfDigits intPart : ℚ) + (natOfDigits fracPart : ℚ) / (10 ^ fracPart.length : ℚ)
    let expo : Option (Bool × List Char) :=
      match l4 with
      | 'e' :: t | 'E' :: t =>
        match t with
        | '-' :: u => some (true, (u.span Char.isDigit).1)
        | '+' :: u => some (false, (u.span Char.isDigit).1)
        | _ => some (false, (t.span Char.isDigit).1)
      | _ => none
    let scaled : ℚ :=
      match expo with
      | some (neg, ds) =>
        if ds.isEmpty then mantissa
        else if neg then mantissa / (10 ^ natOfDigits ds : ℚ)
        else mantissa * (10 ^ natOfDigits ds : ℚ)
      | none => mantissa
    some (sign * scaled)

/-- parseFloat on a Lean string. -/
def parseFloatS (s : String) : Option ℚ := parseFloatQ s.toList

/-- JavaScript String.prototype.trim. -/
def trimChars (l : List Char) : List Char :=
  ((l.dropWhile Char.isWhitespace).reverse.dropWhile Char.isWhitespace).reverse

/-- Whether the pattern occurs as a prefix of the list (helper for substring
containment, the JavaScript String.prototype.includes). -/
def startsWithChars : List Char → List Char → Bool
  | [], _ => true
  | _ :: _, [] => false
  | p :: ps, c :: cs => p == c && startsWithChars ps cs

/-- JavaScript String.prototype.includes on character lists. -/
def containsChars (l pat : List Char) : Bool :=
  match l with
  | [] => startsWithChars pat []
  | _ :: cs => startsWithChars pat l || containsChars cs pat

/-- includes on strings, as the availability scans use it. -/
def strIncludes (s pat : String) : Bool := containsChars s.toList pat.toList

/-- JavaScript String.prototype.toLowerCase (ASCII, which covers every string
the source lowercases). -/
def lowerS (s : String) : String := String.mk (s.toList.map Char.toLower)

/-! ## The JSON value model (for JSON-LD structured data) -/

/-- A parsed JSON document, as produced by JSON.parse on a ld+json script. -/
inductive Json where
  | null : Json
  | bool : Bool → Json
  | num : ℚ → Json
  | str : String → Json
  | arr : List Json → Json
  | obj : List (String × Json) → Json
deriving Inhabited

/-- JavaScript truthiness of a JSON value (NaN does not occur in parsed
JSON).  Property access on a missing key is modelled by Json.null, which has
the same truthiness, typeof-object test and strict-equality behaviour as
undefined at every use site of the source. -/
def Json.truthy : Json → Bool
  | .null => false
  | .bool b => b
  | .num q => q != 0
  | .str s => s != ""
  | .arr _ => true
  | .obj _ => true

/-- Property access data[key]; undefined/absent is Json.null. -/
def Json.get : Json → String → Json
  | .obj fields, k =>
    match fields.find? (fun kv => kv.1 == k) with
    | some kv => kv.2
    | none => .null
  | _, _ => .null

/-- The JavaScript or-else operator a or b used for default values. -/
def jsOr (a b : Json) : Json := if a.truthy then a else b

/-- typeof v === 'object' && v !== null, the guard of the recursive key scan. -/
def Json.isObjLike : Json → Bool
  | .arr _ => true
  | .obj _ => true
  | _ => false

def Json.fields : Json → List (String × Json)
  | .obj l => l
  | _ => []

/-- data['@type'] === 'Product' || (Array.isArray(data['@type']) &&
data['@type'].includes('Product')). -/
def isProductTyped (j : Json) : Bool :=
  match j.get "@type" with
  | .str s => s == "Product"
  | .arr l => l.any (fun x => match x with | .str s => s == "Product" | _ => false)
  | _ => false

/-- Array.isArray(offers) ? offers : [offers]. -/
def offersArray (offers : Json) : List Json :=
  match offers with
  | .arr l => l
  | o => [o]

/-- The record findProductInJsonLd returns: raw price value, resolved
currency value and raw name value of the matched product. -/
structure PriceRec where
  price : Json
  currency : Json
  name : Json
deriving Inhabited

/-- One offer of the offers loop: if (offer.price || offer.lowPrice) return
the record built from it. -/
def offerHit (productName : Json) (offer : Json) : Option PriceRec :=
  let p := jsOr (offer.get "price") (offer.get "lowPrice")
  if p.truthy then
    some ⟨p, jsOr (offer.get "priceCurrency") (.str "AUD"), productName⟩
  else none

/-- findProductInJsonLd with explicit recursion fuel; the fuel only bounds
the recursion depth, and findProductInJsonLd below supplies a bound larger
than the depth of any finite JSON value, so the none-on-exhaustion branch is
never taken.  Faithful to scraper.ts lines 613-666 including the early
return inside the @graph branch. -/
def findProductF : ℕ → Json → Option PriceRec
  | 0, _ => none
  | fuel + 1, j =>
    if ¬ j.truthy then none
    else
      match j with
      | .arr items => items.findSome? (findProductF fuel)
      | _ =>
        let productHit : Option PriceRec :=
          if isProductTyped j then
            let offers := j.get "offers"
            match (if offers.truthy
                   then (offersArray offers).findSome? (offerHit (j.get "name"))
                   else none) with
            | some r => some r
            | none =>
              if (j.get "price").truthy then
                some ⟨j.get "price", jsOr (j.get "priceCurrency") (.str "AUD"), j.get "name"⟩
              else none
          else none
        match productHit with
        | some r => some r
        | none =>
          if (j.get "@graph").truthy then findProductF fuel (j.get "@graph")
          else
            j.fields.findSome? (fun kv =>
              if kv.2.isObjLike then findProductF fuel kv.2 else none)

mutual

/-- Structural size of a JSON value, a bound on the recursion depth of the
search. -/
def Json.depthBound : Json → ℕ
  | .null => 1
  | .bool _ => 1
  | .num _ => 1
  | .str _ => 1
  | .arr l => 1 + Json.depthBoundList l
  | .obj l => 1 + Json.depthBoundFields l

def Json.depthBoundList : List Json → ℕ
  | [] => 0
  | x :: xs => Json.depthBound x + Json.depthBoundList xs

def Json.depthBoundFields : List (String × Json) → ℕ
  | [] => 0
  | kv :: xs => Json.depthBound kv.2 + Json.depthBoundFields xs

end

/-- findProductInJsonLd of scraper.ts. -/
def findProduct (j : Json) : Option PriceRec :=
  findProductF (2 * j.depthBound + 2) j

/-! ## The price regular expressions of the selector/regex fallback

The four patterns of scrapeWithCheerio (scraper.ts lines 458-463), in their
fixed order, with JavaScript global-match semantics: scan left to right,
non-overlapping, greedy with backtracking.  Each matcher takes the text at
one start position and returns the matched characters plus the rest. -/

def isDigitOrComma (c : Char) : Bool := c.isDigit || c == ','

/-- The number body [\d,]+\.?\d* when nothing mandatory follows it: the
greedy parse is canonical because both trailing parts may match empty. -/
def matchNumBody (l : List Char) : Option (List Char × List Char) :=
  let (a, r1) := l.span isDigitOrComma
  if a.isEmpty then none
  else
    let (b, r2) : List Char × List Char :=
      match r1 with
      | '.' :: t => (['.'], t)
      | _ => ([], r1)
    let (c, r3) := r2.span Char.isDigit
    some (a ++ b ++ c, r3)

/-- Pattern 1: a dollar sign followed by the number body. -/
def matchDollarPre (l : List Char) : Option (List Char × List Char) :=
  match l with
  | '$' :: rest =>
    match matchNumBody rest with
    | some (m, r) => some ('$' :: m, r)
    | none => none
  | _ => none

/-- Pattern 2: number body, optional whitespace, then a mandatory dollar
sign.  Because a part of the pattern follows the greedy quantifiers, the
matcher searches candidate quantifier lengths in the engine's backtracking
order: maximal first, innermost quantifier first. -/
def matchDollarSuf (l : List Char) : Option (List Char × List Char) :=
  let aMax := (l.span isDigitOrComma).1.length
  if aMax = 0 then none
  else
    ((List.range aMax).map (fun k => aMax - k)).findSome? (fun aLen =>
      let r1 := l.drop aLen
      let bOpts : List ℕ := match r1 with | '.' :: _ => [1, 0] | _ => [0]
      bOpts.findSome? (fun bLen =>
        let r2 := r1.drop bLen
        let cMax := (r2.span Char.isDigit).1.length
        ((List.range (cMax + 1)).map (fun k => cMax - k)).findSome? (fun cLen =>
          let r3 := r2.drop cLen
          let (sp, r4) := r3.span Char.isWhitespace
          match r4 with
          | '$' :: after =>
            some (l.take aLen ++ r1.take bLen ++ r2.take cLen ++ sp ++ ['$'], after)
          | _ => none)))

/-- Pattern 3: the case-insensitive currency-code prefix AU with optional D,
optional whitespace, then the number body.  Only the optional D needs a
backtracking alternative; shortening the whitespace run cannot help because
whitespace characters are not digits or commas. -/
def matchAudPre (l : List Char) : Option (List Char × List Char) :=
  match l with
  | x :: y :: rest =>
    if x.toLower == 'a' && y.toLower == 'u' then
      let withTail : List Char → Option (List Char × List Char) := fun r =>
        let (sp, r1) := r.span Char.isWhitespace
        match matchNumBody r1 with
        | some (m, r2) => some (sp ++ m, r2)
        | none => none
      match rest with
      | z :: rest2 =>
        if z.toLower == 'd' then
          match withTail rest2 with
          | some (m, r) => some (x :: y :: z :: m, r)
          | none =>
            match withTail rest with
            | some (m, r) => some (x :: y :: m, r)
            | none => none
        else
          match withTail rest with
          | some (m, r) => some (x :: y :: m, r)
          | none => none
      | [] => none
    else none
  | _ => none

/-- Pattern 4: the bare number body. -/
def matchBare (l : List Char) : Option (List Char × List Char) :=
  matchNumBody l

/-- Global matching: at each position try the matcher, on success continue
after the match, on failure advance one character.  Every matcher above
consumes at least one character, so fuel equal to the list length never runs
out. -/
def globalAux (m : List Char → Option (List Char × List Char)) :
    ℕ → List Char → List (List Char)
  | 0, _ => []
  | _ + 1, [] => []
  | fuel + 1, c :: rest =>
    match m (c :: rest) with
    | some (mat, after) => mat :: globalAux m fuel after
    | none => globalAux m fuel rest

def globalMatches (m : List Char → Option (List Char × List Char))
    (l : List Char) : List (List Char) :=
  globalAux m l.length l

/-- The ordered pattern list of the source. -/
def pricePatterns : List (List Char → Option (List Char × List Char)) :=
  [matchDollarPre, matchDollarSuf, matchAudPre, matchBare]

/-- One candidate match processed as in the source: keep digits, dots and
commas, strip commas, parseFloat, and accept only a value strictly between
0 and 1,000,000 (scraper.ts lines 468-478). -/
def candidateValue (m : List Char) : Option ℚ :=
  parseFloatQ (stripCommas (keepNumChars m))

def acceptCandidate (m : List Char) : Option ℚ :=
  match candidateValue m with
  | some q => if 0 < q ∧ q < 1000000 then some q else none
  | none => none

/-- The selector/regex fallback over the texts of the elements matched by
the effective selector: first element, first pattern, first match whose
parsed value is accepted wins (scraper.ts lines 453-482). -/
def selectorPrice (texts : List String) : Option ℚ :=
  texts.findSome? (fun t =>
    let cs := trimChars t.toList
    pricePatterns.findSome? (fun pat =>
      (globalMatches pat cs).findSome? acceptCandidate))

/-- All candidate matches in scan order (element-major, then pattern, then
match position), for stating that rejected candidates are skipped and
scanning continues. -/
def allCandidates (texts : List String) : List (List Char) :=
  texts.flatMap (fun t =>
    pricePatterns.flatMap (fun pat => globalMatches pat (trimChars t.toList)))

/-! ## The static (cheerio) document model and extraction pipeline

A StaticDoc carries exactly the inputs scrapeWithCheerio reads for price,
currency and availability: the parsed ld+json script blocks (none marks a
block on which JSON.parse throws), the five price meta tags and four
currency meta tags in their lookup order, the trimmed is irrelevant — raw
texts of the elements matched by the effective selector, the candidate
add-to-cart buttons (visible text and disabled attribute) and the texts of
the product-area elements. -/

structure StaticDoc where
  jsonLdBlocks : List (Option Json)
  metaOgPriceAmount : Option String
  metaProductPriceAmount : Option String
  metaNamePrice : Option String
  metaProductPrice : Option String
  metaTwitterData1 : Option String
  metaOgPriceCurrency : Option String
  metaProductPriceCurrency : Option String
  metaNameCurrency : Option String
  metaProductCurrency : Option String
  selectorTexts : List String
  cartButtons : List (String × Bool)
  productAreaTexts : List String

/-- The JavaScript or-chain over attr('content') lookups: undefined and the
empty string are both falsy, so the first present non-empty value wins. -/
def metaChain : List (Option String) → Option String
  | [] => none
  | none :: rest => metaChain rest
  | some s :: rest => if s == "" then metaChain rest else some s

/-- Strategy 1 of the pipeline: scan the ld+json blocks in document order,
skip blocks whose JSON.parse throws, and return the first product record
found (scraper.ts lines 407-425). -/
def jsonLdHit (blocks : List (Option Json)) : Option PriceRec :=
  blocks.findSome? (fun b =>
    match b with
    | none => none
    | some j =>
      match findProduct j with
      | some r => if r.price.truthy then some r else none
      | none => none)

/-- parseFloat applied to a JSON price value (string prices are parsed,
numbers pass through; parseFloat of any other value is NaN here — the
source never feeds it one). -/
def parseFloatJson : Json → Option ℚ
  | .num q => some q
  | .str s => parseFloatS s
  | _ => none

/-- Strategy 2 of the pipeline: the meta-tag price, accepted only when the
comma-stripped parse is a number greater than zero (scraper.ts lines
428-450). -/
def metaPriceAmount (doc : StaticDoc) : Option String :=
  metaChain [doc.metaOgPriceAmount, doc.metaProductPriceAmount,
             doc.metaNamePrice, doc.metaProductPrice, doc.metaTwitterData1]

def metaPriceCurrency (doc : StaticDoc) : Option String :=
  metaChain [doc.metaOgPriceCurrency, doc.metaProductPriceCurrency,
             doc.metaNameCurrency, doc.metaProductCurrency]

def metaPrice (doc : StaticDoc) : Option ℚ :=
  match metaPriceAmount doc with
  | none => none
  | some s =>
    match parseFloatQ (stripCommas s.toList) with
    | some q => if 0 < q then some q else none
    | none => none

/-- The price outcome of the extraction phase: none is the null price, and
some none is NaN (a truthy JSON-LD price whose parseFloat is NaN still stops
the pipeline). -/
abbrev PriceOut := Option (Option ℚ)

structure ExtractOut where
  price : PriceOut
  currency : Json
deriving Inhabited

/-- The price/currency extraction of scrapeWithCheerio: JSON-LD first, then
meta tags, then the selector/regex fallback, each strategy attempted only
while price is still null. -/
def extractCheerio (doc : StaticDoc) : ExtractOut :=
  match jsonLdHit doc.jsonLdBlocks with
  | some r => ⟨some (parseFloatJson r.price), jsOr r.currency (.str "AUD")⟩
  | none =>
    match metaPrice doc with
    | some q =>
      ⟨some (some q),
       match metaPriceCurrency doc with
       | some c => .str c
       | none => .str "AUD"⟩
    | none => ⟨(selectorPrice doc.selectorTexts).map some, .str "AUD"⟩

/-! ## The static availability classifier (scraper.ts lines 526-599) -/

/-- The offers value of the record the JSON-LD availability branch
inspects.  findProductInJsonLd returns a record with only price, currency
and name keys, so reading offers on it yields undefined; this constant is
that access. -/
def recOffers (_ : PriceRec) : Json := Json.null

/-- One offer of the availability loop: a truthy availability string is
lowercased and matched against the in-stock then out-of-stock tokens; an
availability matching neither leaves the loop running. -/
def offerAvailability (offer : Json) : Option Bool :=
  let av := offer.get "availability"
  if av.truthy then
    match av with
    | .str s =>
      let low := lowerS s
      if strIncludes low "instock" || strIncludes low "in_stock" then some true
      else if strIncludes low "outofstock" || strIncludes low "out_of_stock" then some false
      else none
    | _ => none
  else none

/-- The JSON-LD availability scan of the static path.  It asks for
product.offers on the extraction record, which never carries an offers
key, so the scan can never produce a value (the rendered path, with its own
inline raw-product search, does not share this defect). -/
def cheerioJsonLdAvailability (blocks : List (Option Json)) : Option Bool :=
  blocks.findSome? (fun b =>
    match b with
    | none => none
    | some j =>
      match findProduct j with
      | some r =>
        let offers := recOffers r
        if offers.truthy then (offersArray offers).findSome? offerAvailability
        else none
      | none => none)

/-- Any non-disabled button whose lowercased text includes add to cart or
buy now. -/
def hasActiveAddToCart (buttons : List (String × Bool)) : Bool :=
  buttons.any (fun b =>
    let txt := lowerS b.1
    (strIncludes txt "add to cart" || strIncludes txt "buy now") && !b.2)

def unavailableIndicators : List String :=
  ["out of stock", "sold out", "currently unavailable", "temporarily unavailable"]

/-- The product-area keyword scan: the texts are concatenated with space
separators, lowercased, and searched for the negative indicators. -/
def productAreaHit (texts : List String) : Bool :=
  let joined := lowerS (texts.foldl (fun acc t => acc ++ " " ++ t) "")
  unavailableIndicators.any (fun ind => strIncludes joined ind)

/-- The availability classification of scrapeWithCheerio: structured data
first, then active add-to-cart detection, then the scoped keyword scan,
defaulting to available. -/
def classifyCheerio (doc : StaticDoc) : Bool :=
  match cheerioJsonLdAvailability doc.jsonLdBlocks with
  | some b => b
  | none =>
    if hasActiveAddToCart doc.cartButtons then true
    else !(productAreaHit doc.productAreaTexts)

/-! ## The scraping orchestrator (scraper.ts lines 49-78) -/

/-- The result record of a scraping method. -/
structure ScrapeResult where
  price : PriceOut
  currency : Json
  isAvailable : Bool
  error : Option String
deriving Inhabited

/-- One scraping attempt: a thrown error or a returned result. -/
abbrev Attempt := Except Unit ScrapeResult

/-- The fallback result when every method fails. -/
def failedScrape : ScrapeResult :=
  ⟨none, .str "AUD", false, some "Unable to extract price with any method"⟩

/-- The method loop of scrapePrice: return the first attempt that did not
throw and extracted a non-null price; a thrown attempt is logged and the
next method tried. -/
def scrapeLoop : List Attempt → ScrapeResult
  | [] => failedScrape
  | .error _ :: rest => scrapeLoop rest
  | .ok r :: rest => if r.price.isSome then r else scrapeLoop rest

/-- scrapePrice over its fixed method order: the rendered (puppeteer)
attempt first, the static (cheerio) attempt second. -/
def scrapePrice (rendered staticAttempt : Attempt) : ScrapeResult :=
  scrapeLoop [rendered, staticAttempt]

/-! ## The persistent-store model (db/schema.ts) and the scheduler

Prices are stored as decimal strings and parsed back with parseFloat; the
round trip is the identity on the rational the number denotes, so the model
stores rationals directly.  The string-truthiness tests of the scheduler
(product.currentPrice, product.targetPrice) hold exactly when the column is
non-null, because a non-empty numeral string is truthy even when it denotes
zero; the numeric-truthiness test inside the target check
(!currentPriceFloat) additionally treats the parsed value zero as absent,
and is modelled separately below. -/

inductive NotifType where
  | price_drop
  | target_reached
  | back_in_stock
deriving DecidableEq

/-- Message contents are modelled by their template and parameters; the
claims never inspect the rendered string, only which template fired. -/
inductive Msg where
  | priceDrop (name : String) (oldP newP saved : ℚ)
  | targetReached (name : String) (newP target : ℚ)
  | wentOutOfStock (name : String)
  | cameBackInStock (name : String) (newP : ℚ)
deriving DecidableEq

structure NotificationRow where
  id : ℕ
  productId : ℕ
  ntype : NotifType
  msg : Msg
  sent : Bool
  sentAt : Option ℕ
  createdAt : ℕ
deriving DecidableEq

structure ObsRow where
  productId : ℕ
  price : ℚ
  currency : Json
  isAvailable : Bool
  scrapedAt : ℕ

structure ProductRow where
  id : ℕ
  name : String
  currentPrice : Option ℚ
  targetPrice : Option ℚ
  isActive : Bool
  lastChecked : Option ℕ

/-- The store: history and notifications are kept newest first (every insert
conses a row carrying a strictly larger clock value, so list order agrees
with the orderBy-descending of every query). -/
structure SysState where
  products : List ProductRow
  history : List ObsRow
  notifs : List NotificationRow
  nextNotifId : ℕ
  clock : ℕ

/-- The scrape outcome a check consumes. -/
structure ScrapeOut where
  price : Option ℚ
  currency : Json
  isAvailable : Bool

/-- createNotification of scheduler.ts: insert an unsent row stamped with
the current instant. -/
def createNotification (s : SysState) (pid : ℕ) (ty : NotifType) (m : Msg) : SysState :=
  { s with
    notifs := ⟨s.nextNotifId, pid, ty, m, false, none, s.clock⟩ :: s.notifs
    nextNotifId := s.nextNotifId + 1
    clock := s.clock + 1 }

/-- checkTargetPriceNotification (scheduler.ts lines 245-307) as a pure
decision: given the product row as read at the start of the check, the new
price, and the store after the new observation was inserted, decide whether
a target_reached notification is created. -/
def targetDecision (product : ProductRow) (newP : ℚ) (s : SysState) : Bool :=
  match product.targetPrice with
  | none => false
  | some target =>
    if target < newP then false
    else
      let crossing : Bool :=
        match product.currentPrice with
        | none => true
        | some c => c == 0 || target < c
      if ¬ crossing then false
      else
        let tgNotifs := s.notifs.filter
          (fun n => n.productId == product.id && n.ntype == NotifType.target_reached)
        match (tgNotifs.take 5).head? with
        | none => true
        | some mostRecent =>
          let recentHistory := (s.history.filter
            (fun o => o.productId == product.id && mostRecent.createdAt < o.scrapedAt)).take 10
          recentHistory.any (fun o => target < o.price)

/-- checkProductPrice (scheduler.ts lines 109-177) on one product id: a
null price (or a throw anywhere in the check, modelled by the error
outcome) leaves the store untouched; otherwise the observation is inserted,
the product row updated, and the three notification rules run in source
order.  Returns the new store and the notification types created by this
check. -/
def checkProductPrice (s : SysState) (pid : ℕ) (outcome : Except Unit ScrapeOut) :
    SysState × List NotifType :=
  match s.products.find? (fun p => p.id == pid) with
  | none => (s, [])
  | some product =>
    match outcome with
    | .error _ => (s, [])
    | .ok r =>
      match r.price with
      | none => (s, [])
      | some newP =>
        let cur := product.currentPrice
        let s1 : SysState :=
          { s with
            history := ⟨pid, newP, r.currency, r.isAvailable, s.clock⟩ :: s.history
            clock := s.clock + 1 }
        let s2 : SysState :=
          { s1 with
            products := s1.products.map (fun p =>
              if p.id == pid then
                { p with currentPrice := some newP, lastChecked := some s1.clock }
              else p) }
        let dropMsg : Option Msg :=
          match cur with
          | some c =>
            if newP < c then some (.priceDrop product.name c newP (c - newP)) else none
          | none => none
        let s3 : SysState :=
          match dropMsg with
          | some m => createNotification s2 pid .price_drop m
          | none => s2
        let tgHit : Bool := targetDecision product newP s3
        let s4 : SysState :=
          if tgHit then
            createNotification s3 pid .target_reached
              (.targetReached product.name newP (product.targetPrice.getD 0))
          else s3
        let stockKind : Option Msg :=
          if !r.isAvailable && cur.isSome then some (.wentOutOfStock product.name)
          else if r.isAvailable && !cur.isSome then some (.cameBackInStock product.name newP)
          else none
        let s5 : SysState :=
          match stockKind with
          | some m => createNotification s4 pid .back_in_stock m
          | none => s4
        let created :=
          (if dropMsg.isSome then [NotifType.price_drop] else []) ++
          (if tgHit then [NotifType.target_reached] else []) ++
          (match stockKind with | some _ => [NotifType.back_in_stock] | none => [])
        (s5, created)

/-! ## The notification service (notifications.ts) -/

/-- The delivery collaborator: per notification id, delivered, failed, or
thrown.  The dispatch loop marks the row sent in all three cases. -/
inductive DeliverOutcome where
  | delivered
  | failed
  | thrown

/-- sendPendingNotifications (notifications.ts lines 72-125): select up to
ten unsent rows, attempt delivery of each once, and mark each sent
regardless of the outcome (both the normal path and the catch handler set
sent).  Returns the new store and the ids attempted, in order. -/
def sendPendingNotifications (s : SysState) (_deliver : ℕ → DeliverOutcome) :
    SysState × List ℕ :=
  let batch := (s.notifs.filter (fun n => n.sent == false)).take 10
  let batchIds := batch.map (fun n => n.id)
  let s1 : SysState :=
    { s with
      notifs := s.notifs.map (fun n =>
        if n.id ∈ batchIds then { n with sent := true, sentAt := some s.clock }
        else n)
      clock := s.clock + 1 }
  (s1, batchIds)

/-- createAndSendNotification (notifications.ts lines 130-167): insert the
new unsent row; when immediate, attempt delivery and then set sent on every
row whose productId matches, not only the new row (the update filters on
productId alone). -/
def createAndSendNotification (s : SysState) (pid : ℕ) (ty : NotifType) (m : Msg)
    (immediate : Bool) : SysState :=
  let s1 : SysState :=
    { s with
      notifs := ⟨s.nextNotifId, pid, ty, m, false, none, s.clock⟩ :: s.notifs
      nextNotifId := s.nextNotifId + 1
      clock := s.clock + 1 }
  if immediate then
    { s1 with
      notifs := s1.notifs.map (fun n =>
        if n.productId == pid then { n with sent := true, sentAt := some s1.clock }
        else n)
      clock := s1.clock + 1 }
  else s1

/-- cleanupOldPriceHistory (scheduler.ts lines 205-218): the daily retention
tick deletes price observations older than the cutoff; it never touches
notifications. -/
def cleanupOldPriceHistory (s : SysState) (cutoff : ℕ) : SysState :=
  { s with history := s.history.filter (fun o => ¬ o.scrapedAt < cutoff) }

/-- The operations the running core performs on the store: the per-product
check of the price tick, the dispatch tick, the retention tick, and
notification creation.  cleanupOldNotifications is reachable only through
the HTTP cleanup endpoint of the CRUD layer, not from any scheduled job, so
it is external housekeeping rather than a core operation. -/
inductive CoreOp where
  | check (pid : ℕ) (outcome : Except Unit ScrapeOut)
  | dispatch (deliver : ℕ → DeliverOutcome)
  | retention (cutoff : ℕ)
  | createSend (pid : ℕ) (ty : NotifType) (m : Msg) (immediate : Bool)

def applyCore : CoreOp → SysState → SysState
  | .check pid outcome, s => (checkProductPrice s pid outcome).1
  | .dispatch deliver, s => (sendPendingNotifications s deliver).1
  | .retention cutoff, s => cleanupOldPriceHistory s cutoff
  | .createSend pid ty m immediate, s => createAndSendNotification s pid ty m immediate

/-! ## Closed-loop monitor runs (for the dedup claims) -/

/-- The store holding one fresh monitor with the given target price. -/
def initState (target : Option ℚ) : SysState :=
  ⟨[⟨1, "item", none, target, true, none⟩], [], [], 0, 0⟩

/-- Iterate checkProductPrice over a list of scrape outcomes, collecting the
notification types created at each check. -/
def runOutcomes (s : SysState) (pid : ℕ) :
    List (Except Unit ScrapeOut) → SysState × List (List NotifType)
  | [] => (s, [])
  | o :: rest =>
    let (s1, created) := checkProductPrice s pid o
    let (s2, tail) := runOutcomes s1 pid rest
    (s2, created :: tail)

/-- A run over a plain price sequence (every check succeeds, product
available), reporting at each check whether a target_reached event was
created. -/
def emitsAux (s : SysState) : List ℚ → List Bool
  | [] => []
  | p :: rest =>
    let (s1, created) := checkProductPrice s 1 (.ok ⟨some p, .str "AUD", true⟩)
    created.contains NotifType.target_reached :: emitsAux s1 rest

def emits (target : ℚ) (prices : List ℚ) : List Bool :=
  emitsAux (initState (some target)) prices

/-! ## The claim-side dedup state machine (from the words of the spec)

specEmits follows the claim: an event fires exactly when the new price is
at or below target, the check is threshold-crossing (no prior current
price, or prior current price above target), and, whenever a previous
target_reached event exists, some observation recorded after that event
exceeded the target.  The armed flag is true exactly when no event exists
yet or such a later above-target observation exists. -/

def specCrossing (prev : Option ℚ) (target : ℚ) : Bool :=
  match prev with
  | none => true
  | some c => target < c

def specEmitsAux (target : ℚ) (prev : Option ℚ) (armed : Bool) : List ℚ → List Bool
  | [] => []
  | p :: rest =>
    let e := decide (p ≤ target) && specCrossing prev target && armed
    e :: specEmitsAux target (some p) (if e then false else armed || decide (target < p)) rest

def specEmits (target : ℚ) (prices : List ℚ) : List Bool :=
  specEmitsAux target none true prices

/-! ## Claim C5: the orchestrator's rendered-then-static fallback -/

/-- The price an attempt yields: none when the attempt threw or returned a
null price. -/
def attemptYield (a : Attempt) : Option ScrapeResult :=
  match a with
  | .error _ => none
  | .ok res => if res.price.isSome then some res else none

/-- C5.  The scraping orchestrator attempts the rendered fetch first and the
static fetch second, returns the result of the first attempt whose
extracted price is non-null (a throw in one attempt does not prevent the
next), and returns the null-price result carrying the message Unable to
extract price with any method exactly when both attempts fail to yield a
non-null price. -/
theorem scrape_orchestrator_fallback (r st : Attempt) :
    scrapePrice r st =
      ((attemptYield r).orElse (fun _ => attemptYield st)).getD failedScrape
    ∧ (scrapePrice r st = failedScrape ↔
        attemptYield r = none ∧ attemptYield st = none) := by
  have hprice : ∀ res : ScrapeResult, res.price.isSome = true → res ≠ failedScrape := by
    intro res h hcontra
    rw [hcontra] at h
    simp [failedScrape] at h
  cases r with
  | error e =>
    cases st with
    | error e2 => simp [scrapePrice, scrapeLoop, attemptYield]
    | ok res =>
      by_cases h : res.price.isSome
      · simp [scrapePrice, scrapeLoop, attemptYield, h]
        exact fun hcontra => (hprice res h hcontra).elim
      · simp [scrapePrice, scrapeLoop, attemptYield, h]
  | ok res1 =>
    by_cases h1 : res1.price.isSome
    · simp [scrapePrice, scrapeLoop, attemptYield, h1]
      exact fun hcontra => (hprice res1 h1 hcontra).elim
    · cases st with
      | error e2 => simp [scrapePrice, scrapeLoop, attemptYield, h1]
      | ok res2 =>
        by_cases h2 : res2.price.isSome
        · simp [scrapePrice, scrapeLoop, attemptYield, h1, h2]
          exact fun hcontra => (hprice res2 h2 hcontra).elim
        · simp [scrapePrice, scrapeLoop, attemptYield, h1, h2]

/-! ## Claim C6: a failed extraction leaves the monitor untouched -/

/-- C6.  When extraction yields a null price (and likewise when the scrape
throws), the check appends no observation, changes no product row, creates
no notification, and returns the store exactly as it was. -/
theorem null_price_check_is_noop (s : SysState) (pid : ℕ) (cur : Json) (av : Bool) :
    checkProductPrice s pid (Except.ok ⟨none, cur, av⟩) = (s, [])
    ∧ checkProductPrice s pid (Except.error ()) = (s, []) := by
  constructor <;>
  · unfold checkProductPrice
    cases s.products.find? (fun p => p.id == pid) <;> simp

/-! ## Claim C9: core operations never delete a notification -/

lemma mem_notifs_createNotification (s : SysState) (pid : ℕ) (ty : NotifType) (m : Msg)
    (n : NotificationRow) (h : n ∈ s.notifs) : n ∈ (createNotification s pid ty m).notifs := by
  simp [createNotification]
  exact Or.inr h

lemma mem_notifs_check (s : SysState) (pid : ℕ) (o : Except Unit ScrapeOut)
    (n : NotificationRow) (h : n ∈ s.notifs) : n ∈ (checkProductPrice s pid o).1.notifs := by
  unfold checkProductPrice
  split
  · exact h
  · cases o with
    | error e => exact h
    | ok r =>
      cases hp : r.price with
      | none => simp [hp]; exact h
      | some newP =>
        simp only [hp]
        split <;> split <;> split <;>
          simp_all [createNotification]

/-- Every existing notification row survives any core operation with its
identity fields intact; only the delivered flag and timestamp can change.
Shared workhorse for the preservation claims. -/
lemma core_notif_row_preserved (op : CoreOp) (s : SysState)
    (n : NotificationRow) (hn : n ∈ s.notifs) :
    ∃ n' ∈ (applyCore op s).notifs,
      n'.id = n.id ∧ n'.productId = n.productId ∧ n'.ntype = n.ntype ∧
      n'.msg = n.msg ∧ n'.createdAt = n.createdAt ∧
      ((n'.sent = n.sent ∧ n'.sentAt = n.sentAt) ∨ n'.sent = true) := by
  cases op with
  | check pid outcome =>
    exact ⟨n, mem_notifs_check s pid outcome n hn, rfl, rfl, rfl, rfl, rfl, Or.inl ⟨rfl, rfl⟩⟩
  | dispatch deliver =>
    simp only [applyCore, sendPendingNotifications]
    by_cases hmem :
        n.id ∈ ((s.notifs.filter (fun n => n.sent == false)).take 10).map (fun n => n.id)
    · refine ⟨{ n with sent := true, sentAt := some s.clock }, ?_, rfl, rfl, rfl, rfl, rfl, Or.inr rfl⟩
      simp only [List.mem_map]
      refine ⟨n, hn, ?_⟩
      dsimp only
      rw [if_pos (List.mem_map.mp hmem)]
    · refine ⟨n, ?_, rfl, rfl, rfl, rfl, rfl, Or.inl ⟨rfl, rfl⟩⟩
      simp only [List.mem_map]
      refine ⟨n, hn, ?_⟩
      dsimp only
      rw [if_neg (fun h => hmem (List.mem_map.mpr h))]
  | retention cutoff =>
    exact ⟨n, hn, rfl, rfl, rfl, rfl, rfl, Or.inl ⟨rfl, rfl⟩⟩
  | createSend pid ty m immediate =>
    simp only [applyCore, createAndSendNotification]
    by_cases him : immediate
    · simp only [him, if_true]
      by_cases hpid : (n.productId == pid) = true
      · refine ⟨{ n with sent := true, sentAt := some (s.clock + 1) }, ?_, rfl, rfl, rfl, rfl, rfl, Or.inr rfl⟩
        simp only [List.mem_map]
        refine ⟨n, by simp [hn], ?_⟩
        dsimp only
        rw [if_pos hpid]
      · refine ⟨n, ?_, rfl, rfl, rfl, rfl, rfl, Or.inl ⟨rfl, rfl⟩⟩
        simp only [List.mem_map]
        refine ⟨n, by simp [hn], ?_⟩
        dsimp only
        rw [if_neg hpid]
    · simp only [him, if_false]
      exact ⟨n, by simp [hn], rfl, rfl, rfl, rfl, rfl, Or.inl ⟨rfl, rfl⟩⟩

/-- C9.  No core operation (per-product check, dispatch tick, retention
tick, notification creation) ever deletes a NotificationEvent: every
existing row survives with its id, product, kind, message and creation time
intact, and the only mutation ever applied is setting the delivered flag
(with its timestamp).  Deleting rows is left to the external HTTP
housekeeping endpoint, which is not a core operation. -/
theorem core_never_deletes_notifications (op : CoreOp) (s : SysState)
    (n : NotificationRow) (hn : n ∈ s.notifs) :
    ∃ n' ∈ (applyCore op s).notifs,
      n'.id = n.id ∧ n'.productId = n.productId ∧ n'.ntype = n.ntype ∧
      n'.msg = n.msg ∧ n'.createdAt = n.createdAt ∧
      ((n'.sent = n.sent ∧ n'.sentAt = n.sentAt) ∨ n'.sent = true) :=
  core_notif_row_preserved op s n hn

/-- Witness for C9 at a concrete store: the dispatch tick applied to a
one-row store preserves the row. -/
theorem core_never_deletes_notifications_witness :
    ∃ n' ∈ (applyCore (.dispatch (fun _ => .delivered))
        ⟨[], [], [⟨0, 1, .price_drop, .wentOutOfStock "w", false, none, 0⟩], 1, 5⟩).notifs,
      n'.id = 0 ∧ n'.productId = 1 ∧ n'.ntype = NotifType.price_drop ∧
      n'.msg = Msg.wentOutOfStock "w" ∧ n'.createdAt = 0 ∧
      ((n'.sent = false ∧ n'.sentAt = none) ∨ n'.sent = true) :=
  core_never_deletes_notifications (.dispatch (fun _ => .delivered)) _
    ⟨0, 1, .price_drop, .wentOutOfStock "w", false, none, 0⟩ (by simp)

/-! ## Claim C10: the immediate send marks the whole product -/

/-- C10.  After createAndSendNotification with immediate true, the sent
update is keyed on productId alone, so every notification row of that
product — including previously created, still-undelivered rows of other
kinds — ends up delivered, while rows of other products are untouched. -/
theorem immediate_send_marks_whole_product (s : SysState) (pid : ℕ) (ty : NotifType)
    (m : Msg) :
    (∀ n' ∈ (createAndSendNotification s pid ty m true).notifs,
        n'.productId = pid → n'.sent = true)
    ∧ (∀ n ∈ s.notifs, n.productId = pid →
        ∃ n' ∈ (createAndSendNotification s pid ty m true).notifs,
          n'.id = n.id ∧ n'.ntype = n.ntype ∧ n'.msg = n.msg ∧
          n'.createdAt = n.createdAt ∧ n'.sent = true)
    ∧ (∀ n ∈ s.notifs, n.productId ≠ pid →
        n ∈ (createAndSendNotification s pid ty m true).notifs) := by
  refine ⟨?_, ?_, ?_⟩
  · intro n' hn' hpid
    simp only [createAndSendNotification, if_true, List.mem_map] at hn'
    obtain ⟨x, _, hx⟩ := hn'
    by_cases hxp : (x.productId == pid) = true
    · rw [← hx]
      rw [if_pos hxp]
    · exfalso
      rw [← hx] at hpid
      rw [if_neg hxp] at hpid
      exact hxp (by simp [hpid])
  · intro n hn hpid
    refine ⟨{ n with sent := true, sentAt := some (s.clock + 1) }, ?_, rfl, rfl, rfl, rfl, rfl⟩
    simp only [createAndSendNotification, if_true, List.mem_map]
    refine ⟨n, by simp [hn], ?_⟩
    rw [if_pos (by simp [hpid])]
  · intro n hn hpid
    simp only [createAndSendNotification, if_true, List.mem_map]
    refine ⟨n, by simp [hn], ?_⟩
    rw [if_neg (by simp [hpid])]

/-- Witness for C10: a store holding an undelivered price_drop row for
product 1; an immediate back_in_stock send marks that old row delivered
too. -/
theorem immediate_send_marks_whole_product_witness :
    ∃ n' ∈ (createAndSendNotification
        ⟨[], [], [⟨0, 1, .price_drop, .wentOutOfStock "w", false, none, 0⟩], 1, 5⟩
        1 .back_in_stock (.cameBackInStock "w" 10) true).notifs,
      n'.id = 0 ∧ n'.ntype = NotifType.price_drop ∧ n'.msg = Msg.wentOutOfStock "w" ∧
      n'.createdAt = 0 ∧ n'.sent = true :=
  (immediate_send_marks_whole_product
      ⟨[], [], [⟨0, 1, .price_drop, .wentOutOfStock "w", false, none, 0⟩], 1, 5⟩
      1 .back_in_stock (.cameBackInStock "w" 10)).2.1
    ⟨0, 1, .price_drop, .wentOutOfStock "w", false, none, 0⟩ (by simp) rfl

/-! ## Claim C8: the dispatch tick marks its whole batch, once -/

/-- After a dispatch run, any row still undelivered was not in that run's
batch: the batch is marked unconditionally. -/
lemma unsent_not_in_batch (s : SysState) (d : ℕ → DeliverOutcome) :
    ∀ m ∈ (sendPendingNotifications s d).1.notifs, m.sent = false →
      m.id ∉ (sendPendingNotifications s d).2 := by
  intro m hm hsent
  simp only [sendPendingNotifications, List.mem_map] at hm
  obtain ⟨x, hx, hfx⟩ := hm
  by_cases hc :
      x.id ∈ ((s.notifs.filter (fun n => n.sent == false)).take 10).map (fun n => n.id)
  · rw [if_pos (List.mem_map.mp hc)] at hfx
    rw [← hfx] at hsent
    simp at hsent
  · rw [if_neg (fun h => hc (List.mem_map.mpr h))] at hfx
    rw [← hfx]
    exact hc

/-- C8.  A dispatch run selects at most ten undelivered rows, attempts
delivery of each exactly once (the attempted ids are exactly the batch,
in order), marks every one of them delivered regardless of the delivery
outcome, leaves all other rows untouched — and consequently no row of the
batch is ever attempted again by a later run, since delivered flags are
never cleared by any core operation. -/
theorem dispatch_marks_batch_regardless (s : SysState) (d d2 : ℕ → DeliverOutcome) :
    (sendPendingNotifications s d).2 =
      ((s.notifs.filter (fun n => n.sent == false)).take 10).map (fun n => n.id)
    ∧ (sendPendingNotifications s d).2.length ≤ 10
    ∧ (∀ n ∈ s.notifs, n.id ∈ (sendPendingNotifications s d).2 →
        ∃ n' ∈ (sendPendingNotifications s d).1.notifs,
          n'.id = n.id ∧ n'.productId = n.productId ∧ n'.ntype = n.ntype ∧
          n'.msg = n.msg ∧ n'.createdAt = n.createdAt ∧ n'.sent = true)
    ∧ (∀ n ∈ s.notifs, n.id ∉ (sendPendingNotifications s d).2 →
        n ∈ (sendPendingNotifications s d).1.notifs)
    ∧ List.Disjoint (sendPendingNotifications (sendPendingNotifications s d).1 d2).2
        (sendPendingNotifications s d).2
    ∧ (∀ (op : CoreOp) (s0 : SysState) (n : NotificationRow), n ∈ s0.notifs →
        n.sent = true → ∃ n' ∈ (applyCore op s0).notifs, n'.id = n.id ∧ n'.sent = true) := by
  refine ⟨rfl, ?_, ?_, ?_, ?_, ?_⟩
  · simp only [sendPendingNotifications, List.length_map, List.length_take]
    exact min_le_left _ _
  · intro n hn hid
    have hid1 : n.id ∈ ((s.notifs.filter (fun n => n.sent == false)).take 10).map
        (fun n => n.id) := hid
    refine ⟨{ n with sent := true, sentAt := some s.clock }, ?_, rfl, rfl, rfl, rfl, rfl, rfl⟩
    simp only [sendPendingNotifications, List.mem_map]
    refine ⟨n, hn, ?_⟩
    rw [if_pos (List.mem_map.mp hid1)]
  · intro n hn hid
    have hid1 : n.id ∉ ((s.notifs.filter (fun n => n.sent == false)).take 10).map
        (fun n => n.id) := hid
    simp only [sendPendingNotifications, List.mem_map]
    refine ⟨n, hn, ?_⟩
    rw [if_neg (fun h => hid1 (List.mem_map.mpr h))]
  · intro a ha
    have ha1 : a ∈ (((sendPendingNotifications s d).1.notifs.filter
        (fun n => n.sent == false)).take 10).map (fun n => n.id) := ha
    obtain ⟨m, hm, rfl⟩ := List.mem_map.mp ha1
    have hm1 : m ∈ ((sendPendingNotifications s d).1.notifs.filter
        (fun n => n.sent == false)) := List.mem_of_mem_take hm
    rw [List.mem_filter] at hm1
    exact unsent_not_in_batch s d m hm1.1 (by simpa using hm1.2)
  · intro op s0 n hn hsent
    obtain ⟨n', hmem, hid, _, _, _, _, hcase⟩ := core_notif_row_preserved op s0 n hn
    refine ⟨n', hmem, hid, ?_⟩
    rcases hcase with ⟨h1, _⟩ | h1
    · rw [h1, hsent]
    · exact h1

/-- Witness for C8 at a concrete store with one pending row. -/
theorem dispatch_marks_batch_regardless_witness :
    ∃ n' ∈ (sendPendingNotifications
        ⟨[], [], [⟨0, 1, .price_drop, .wentOutOfStock "w", false, none, 0⟩], 1, 5⟩
        (fun _ => .thrown)).1.notifs,
      n'.id = 0 ∧ n'.productId = 1 ∧ n'.ntype = NotifType.price_drop ∧
      n'.msg = Msg.wentOutOfStock "w" ∧ n'.createdAt = 0 ∧ n'.sent = true :=
  (dispatch_marks_batch_regardless
      ⟨[], [], [⟨0, 1, .price_drop, .wentOutOfStock "w", false, none, 0⟩], 1, 5⟩
      (fun _ => .thrown) (fun _ => .thrown)).2.2.1
    ⟨0, 1, .price_drop, .wentOutOfStock "w", false, none, 0⟩ (by simp) (by decide)

/-! ## Claim C7: stock notifications -/

/-- C7 (amended).  Stock notices are level-triggered on the stored current
price, not edge-triggered on availability: a check that extracts a price
creates the out-of-stock notice whenever the observation is unavailable and
the monitor has a current price recorded, and the restock notice whenever
the observation is available and the monitor has no current price
recorded.  Because every successful check stores a current price and
nothing ever clears it, the out-of-stock notice repeats on consecutive
unavailable checks and the restock notice can only fire before the first
successful check. -/
theorem stock_notices_level_triggered (s : SysState) (pid : ℕ) (r : ScrapeOut)
    (product : ProductRow) (hfind : s.products.find? (fun p => p.id == pid) = some product) :
    (NotifType.back_in_stock ∈ (checkProductPrice s pid (Except.ok r)).2 ↔
      (r.price.isSome = true ∧
        ((r.isAvailable = false ∧ product.currentPrice.isSome = true) ∨
         (r.isAvailable = true ∧ product.currentPrice = none))))
    ∧ (∀ p, r.price = some p → r.isAvailable = false → product.currentPrice.isSome = true →
        ∃ n, (checkProductPrice s pid (Except.ok r)).1.notifs.head? = some n ∧
          n.productId = pid ∧ n.ntype = NotifType.back_in_stock ∧
          n.msg = Msg.wentOutOfStock product.name)
    ∧ (∀ p, r.price = some p → r.isAvailable = true → product.currentPrice = none →
        ∃ n, (checkProductPrice s pid (Except.ok r)).1.notifs.head? = some n ∧
          n.productId = pid ∧ n.ntype = NotifType.back_in_stock ∧
          n.msg = Msg.cameBackInStock product.name p) := by
  refine ⟨?_, ?_, ?_⟩
  · cases hp : r.price with
    | none =>
      simp only [checkProductPrice, hfind, hp]
      simp
    | some newP =>
      simp only [checkProductPrice, hfind, hp]
      cases hav : r.isAvailable <;> cases hcur : product.currentPrice <;>
        simp [hav, hcur, createNotification, hp]
  · intro p hp hav hcur
    obtain ⟨c, hc⟩ := Option.isSome_iff_exists.mp hcur
    simp only [checkProductPrice, hfind, hp, hav, hc]
    split <;> split <;> simp_all [createNotification]
  · intro p hp hav hcur
    simp only [checkProductPrice, hfind, hp, hav, hcur]
    split <;> split <;> simp_all [createNotification]

/-- Counterexample for C7 as stated: with a stable unavailable state over
checks 2 and 3 (price extracted each time), the code emits the out-of-stock
notice at both checks — a repeat during a stable run — and the final check,
an unavailable-to-available flip, emits no restock notice. -/
theorem stock_notice_repeats_counterexample :
    (runOutcomes (initState none) 1
      [Except.ok ⟨some 50, .str "AUD", true⟩,
       Except.ok ⟨some 50, .str "AUD", false⟩,
       Except.ok ⟨some 50, .str "AUD", false⟩,
       Except.ok ⟨some 50, .str "AUD", true⟩]).2 =
      [[NotifType.back_in_stock], [NotifType.back_in_stock], [NotifType.back_in_stock], []]
    ∧ ((runOutcomes (initState none) 1
      [Except.ok ⟨some 50, .str "AUD", true⟩,
       Except.ok ⟨some 50, .str "AUD", false⟩,
       Except.ok ⟨some 50, .str "AUD", false⟩,
       Except.ok ⟨some 50, .str "AUD", true⟩]).1.notifs.map (fun n => n.msg)) =
      [Msg.wentOutOfStock "item", Msg.wentOutOfStock "item",
       Msg.cameBackInStock "item" 50] := by
  constructor <;> rfl

/-- Witness for the amended C7 theorem at a concrete store: the second
check of the counterexample run (unavailable observation, current price
recorded) creates the out-of-stock notice. -/
theorem stock_notices_level_triggered_witness :
    NotifType.back_in_stock ∈ (checkProductPrice
      ⟨[⟨1, "item", some 50, none, true, some 0⟩], [], [], 0, 1⟩ 1
      (Except.ok ⟨some 50, .str "AUD", false⟩)).2 :=
  ((stock_notices_level_triggered
      ⟨[⟨1, "item", some 50, none, true, some 0⟩], [], [], 0, 1⟩ 1
      ⟨some 50, .str "AUD", false⟩ ⟨1, "item", some 50, none, true, some 0⟩ rfl).1).mpr
    ⟨rfl, Or.inl ⟨rfl, rfl⟩⟩

/-! ## Claim C4: availability classification in the static path -/

/-- A product block whose offer availability is the schema.org OutOfStock
URL (and which carries a price, so the JSON-LD search returns a record). -/
def outOfStockProduct : Json :=
  .obj [("@type", .str "Product"),
        ("name", .str "Widget"),
        ("offers", .obj [("price", .str "100"),
                         ("availability", .str "https://schema.org/OutOfStock")])]

/-- A static document whose only availability signal is the structured-data
OutOfStock offer: no add-to-cart button and no product-area text (a footer
saying back in stock soon sits outside every product-area selector and is
not scanned at all). -/
def outOfStockDoc : StaticDoc :=
  ⟨[some outOfStockProduct], none, none, none, none, none,
   none, none, none, none, [], [], []⟩

/-- C4, the code side.  In the static path the structured-data availability
signal is dead: the scan reads offers from the record findProductInJsonLd
returns, which never carries an offers key, so it yields nothing on every
document; on the OutOfStock document the classifier therefore falls through
and answers available (true), even though the offer availability of the
block itself decodes to out-of-stock (false), which is what the claim and
the rendered-path twin of this code prescribe. -/
theorem cheerio_structured_availability_is_dead :
    (∀ blocks, cheerioJsonLdAvailability blocks = none)
    ∧ ((offersArray (outOfStockProduct.get "offers")).findSome? offerAvailability
        = some false)
    ∧ classifyCheerio outOfStockDoc = true := by
  refine ⟨?_, by rfl, by rfl⟩
  intro blocks
  induction blocks with
  | nil => rfl
  | cons b rest ih =>
    cases b with
    | none => simpa [cheerioJsonLdAvailability] using ih
    | some j =>
      simp only [cheerioJsonLdAvailability, List.findSome?] at ih ⊢
      cases findProduct j with
      | none => exact ih
      | some r => simpa [recOffers, Json.truthy] using ih

/-! ## Claim C3: the selector/regex candidate acceptance rule -/

lemma findSome?_flatMap {α β γ : Type} (l : List α) (f : α → List β) (g : β → Option γ) :
    (l.flatMap f).findSome? g = l.findSome? (fun a => (f a).findSome? g) := by
  induction l with
  | nil => rfl
  | cons a rest ih =>
    simp only [List.flatMap_cons, List.findSome?_append, ih, List.findSome?_cons]
    cases (f a).findSome? g <;> simp

unseal Rat.mul Rat.add Rat.inv in
/-- C3.  The selector/regex fallback scans all candidate matches in the
fixed order (element, then the four patterns dollar-prefixed,
dollar-suffixed, currency-code-prefixed, bare-numeric, then match
position); the accepted price of a candidate is its numeric value after
stripping thousands separators, a candidate is accepted only when that
value parses and lies strictly between 0 and 1,000,000, and every rejected
candidate is skipped with scanning continuing — so the extracted price is
the first accepted candidate, and any extracted price is in bounds.  The
string 1,237.00 parses to 1237. -/
theorem selector_regex_candidate_rule :
    (∀ texts, selectorPrice texts = (allCandidates texts).findSome? acceptCandidate)
    ∧ (∀ m q, acceptCandidate m = some q →
        candidateValue m = some q ∧ 0 < q ∧ q < 1000000)
    ∧ (∀ texts q, selectorPrice texts = some q → 0 < q ∧ q < 1000000)
    ∧ candidateValue "1,237.00".toList = some 1237
    ∧ selectorPrice ["1,237.00"] = some 1237
    ∧ selectorPrice ["$0.00 then $5.50"] = some (11 / 2)
    ∧ selectorPrice ["$2000000", "$30"] = some 30 := by
  have haccept : ∀ m q, acceptCandidate m = some q →
      candidateValue m = some q ∧ 0 < q ∧ q < 1000000 := by
    intro m q h
    unfold acceptCandidate at h
    cases hv : candidateValue m with
    | none => rw [hv] at h; exact absurd h (by simp)
    | some v =>
      rw [hv] at h
      dsimp only at h
      by_cases hb : 0 < v ∧ v < 1000000
      · rw [if_pos hb] at h
        obtain rfl : v = q := by simpa using h
        exact ⟨rfl, hb⟩
      · rw [if_neg hb] at h
        exact absurd h (by simp)
  have hflat : ∀ texts, selectorPrice texts = (allCandidates texts).findSome? acceptCandidate := by
    intro texts
    unfold selectorPrice allCandidates
    rw [findSome?_flatMap]
    simp only [findSome?_flatMap]
  refine ⟨hflat, haccept, ?_, by decide, by decide, by decide, by decide⟩
  intro texts q h
  rw [hflat] at h
  obtain ⟨m, _, hm⟩ := List.exists_of_findSome?_eq_some h
  exact (haccept m q hm).2

/-! ## Claim C2: JSON-LD precedence in the extraction pipeline -/

/-- In-bounds in the sense of the spec: strictly between 0 and 1,000,000
(the only numeric bounds the spec names). -/
def inBoundsFilter : Option ℚ → Option ℚ
  | some q => if 0 < q ∧ q < 1000000 then some q else none
  | none => none

/-- Modelled from the words of the claim, for comparison with the code:
the first extraction strategy in the fixed order (structured data, meta
tags, selector/regex) that yields a non-null, in-bounds price determines
the result. -/
def claimOrderedPick (doc : StaticDoc) : Option ℚ :=
  let y1 : Option ℚ :=
    match jsonLdHit doc.jsonLdBlocks with
    | some r => parseFloatJson r.price
    | none => none
  match inBoundsFilter y1 with
  | some q => some q
  | none =>
    match inBoundsFilter (metaPrice doc) with
    | some q => some q
    | none => inBoundsFilter (selectorPrice doc.selectorTexts)

/-- A document whose JSON-LD product offer carries the out-of-bounds price
2,000,000 while its meta tag says 50 and its selector text says 30. -/
def hugeJsonLdDoc : StaticDoc :=
  ⟨[some (.obj [("@type", .str "Product"),
                ("offers", .obj [("price", .num 2000000)])])],
   some "50", none, none, none, none, none, none, none, none, ["$30"], [], []⟩

unseal Rat.mul Rat.add Rat.inv in
/-- Counterexample to C2 as stated: the structured-data strategy performs
no bounds check, so a JSON-LD offer price of 2,000,000 — out of the bounds
the claim names — still determines the result, while the claim's ordered
rule would have the in-bounds meta-tag price 50 determine it. -/
theorem jsonld_no_bounds_counterexample :
    (extractCheerio hugeJsonLdDoc).price = some (some 2000000)
    ∧ claimOrderedPick hugeJsonLdDoc = some 50
    ∧ (extractCheerio hugeJsonLdDoc).price ≠ (claimOrderedPick hugeJsonLdDoc).map some := by
  refine ⟨by decide, by decide, by decide⟩

/-- C2 (amended).  Whenever the structured-data scan finds a JSON-LD
Product offer carrying a price, the pipeline's result is exactly that
strategy's output — the parsed offer price and its currency, defaulting to
AUD when the offer names none — and the meta-tag and selector/regex
strategies are never attempted, in the strong sense that the result does
not depend on any meta or selector content of the document; in general the
pipeline result is that of the first strategy, in the fixed order, that
yields a non-null price by its own acceptance rule. -/
theorem jsonld_first_strategy_wins (doc : StaticDoc) (r : PriceRec)
    (h : jsonLdHit doc.jsonLdBlocks = some r) :
    (extractCheerio doc).price = some (parseFloatJson r.price)
    ∧ (extractCheerio doc).currency = jsOr r.currency (.str "AUD")
    ∧ (∀ doc2 : StaticDoc, doc2.jsonLdBlocks = doc.jsonLdBlocks →
        (extractCheerio doc2).price = (extractCheerio doc).price ∧
        (extractCheerio doc2).currency = (extractCheerio doc).currency)
    ∧ (∀ d : StaticDoc, (extractCheerio d).price =
        match jsonLdHit d.jsonLdBlocks with
        | some rec => some (parseFloatJson rec.price)
        | none =>
          match metaPrice d with
          | some q => some (some q)
          | none => (selectorPrice d.selectorTexts).map some) := by
  refine ⟨?_, ?_, ?_, ?_⟩
  · simp [extractCheerio, h]
  · simp [extractCheerio, h]
  · intro doc2 hblocks
    have h2 : jsonLdHit doc2.jsonLdBlocks = some r := by rw [hblocks, h]
    simp [extractCheerio, h, h2]
  · intro d
    unfold extractCheerio
    cases jsonLdHit d.jsonLdBlocks with
    | some rec => simp
    | none =>
      cases metaPrice d with
      | some q => simp
      | none => simp

/-- Witness for C2 at the concrete document above: the scan finds the
record with price 2,000,000, currency defaulted to AUD, and the pipeline
returns exactly that. -/
theorem jsonld_first_strategy_wins_witness :
    (extractCheerio hugeJsonLdDoc).price = some (parseFloatJson (.num 2000000)) :=
  (jsonld_first_strategy_wins hugeJsonLdDoc ⟨.num 2000000, .str "AUD", .null⟩ (by rfl)).1

/-! ## Claim C1: the target-reached dedup machine

The code side is the closed-loop run emits (checkProductPrice iterated on a
single monitor); the claim side is specEmits.  The simulation argument
carries an invariant relating the store to the claim machine's state: prev
is the monitor's current price (the latest observation), and armed holds
exactly when either no target_reached event exists or some observation
recorded after the newest event exceeded the target.  The ten-observation
window of the source scan is exact here because whenever the check is
threshold-crossing with an earlier event on file, the immediately preceding
observation is above target, lies after that event, and sits at the second
position of the scanned window. -/

/-- The target_reached rows of the single monitor, newest first. -/
def tgOf (s : SysState) : List NotificationRow :=
  s.notifs.filter (fun n => n.productId == 1 && n.ntype == NotifType.target_reached)

lemma head?_take {α : Type} (n : ℕ) (l : List α) (hn : 0 < n) :
    (l.take n).head? = l.head? := by
  cases l with
  | nil => simp
  | cons a rest =>
    cases n with
    | zero => exact absurd hn (by simp)
    | succ m => simp

lemma any_take_false {α : Type} (f : α → Bool) (n : ℕ) (l : List α)
    (h : l.any f = false) : (l.take n).any f = false := by
  rw [List.any_eq_false] at h ⊢
  intro x hx
  exact h x (List.mem_of_mem_take hx)

/-- The simulation invariant for the dedup claim. -/
def DedupInv (target : ℚ) (s : SysState) (prev : Option ℚ) (armed : Bool) : Prop :=
  (∃ lc, s.products =
    [{ id := 1, name := "item", currentPrice := prev, targetPrice := some target,
       isActive := true, lastChecked := lc }])
  ∧ (prev = none → tgOf s = [] ∧ s.history = [])
  ∧ (∀ c, prev = some c → 0 < c ∧ ∃ o, s.history.head? = some o ∧ o.price = c)
  ∧ (∀ o ∈ s.history, o.scrapedAt < s.clock ∧ o.productId = 1)
  ∧ (∀ n ∈ tgOf s, n.createdAt < s.clock)
  ∧ (tgOf s = [] → armed = true)
  ∧ (∀ n, (tgOf s).head? = some n →
      (armed = true ↔
        (s.history.filter
          (fun o => o.productId == 1 && decide (n.createdAt < o.scrapedAt))).any
          (fun o => decide (target < o.price)) = true))
  ∧ (armed = true → tgOf s ≠ [] → ∃ c, prev = some c ∧ target < c)
  ∧ (armed = true → ∀ n, (tgOf s).head? = some n →
      ∀ o, s.history.head? = some o → n.createdAt < o.scrapedAt)

lemma dedupInv_init (target : ℚ) : DedupInv target (initState (some target)) none true := by
  refine ⟨⟨none, rfl⟩, fun _ => ⟨rfl, rfl⟩, ?_, ?_, ?_, fun _ => rfl, ?_, ?_, ?_⟩ <;>
    simp [initState, tgOf]


lemma any_take_cons_false {α : Type} (f : α → Bool) (n : ℕ) (a : α) (l : List α)
    (hfa : f a = false) (hrest : l.any f = false) : ((a :: l).take n).any f = false := by
  have h : (a :: l).any f = false := by simp [hfa, hrest]
  exact any_take_false f n _ h

lemma any_take_second {α : Type} (f : α → Bool) (n : ℕ) (hn : 2 ≤ n) (a b : α)
    (l : List α) (hfb : f b = true) : ((a :: b :: l).take n).any f = true := by
  obtain ⟨m, rfl⟩ : ∃ m, n = m + 1 + 1 := ⟨n - 2, by omega⟩
  rw [List.take_succ_cons, List.take_succ_cons]
  simp [hfb]

/-- The target decision of the source equals the claim's condition on a
store whose newest observation is the one this check just inserted, under
the simulation invariant facts about the older rows. -/
lemma targetDecision_char (target p : ℚ) (prev : Option ℚ) (armed : Bool)
    (lc : Option ℕ) (sd : SysState) (t : ℕ) (oldHist : List ObsRow)
    (cur : Json) (av : Bool) (tg : List NotificationRow)
    (hh : sd.history = ⟨1, p, cur, av, t⟩ :: oldHist)
    (hfil : sd.notifs.filter
      (fun n => n.productId == (1 : ℕ) && n.ntype == NotifType.target_reached) = tg)
    (h1 : ∀ o ∈ oldHist, o.scrapedAt < t ∧ o.productId = 1)
    (h2 : prev = none → tg = [])
    (h3 : tg = [] → armed = true)
    (h4a : ∀ n ∈ tg, n.createdAt < t)
    (h4b : ∀ n, tg.head? = some n →
      (armed = true ↔
        (oldHist.filter
          (fun o => o.productId == 1 && decide (n.createdAt < o.scrapedAt))).any
          (fun o => decide (target < o.price)) = true))
    (h5 : armed = true → tg ≠ [] → ∃ c, prev = some c ∧ target < c)
    (h6 : armed = true → ∀ n, tg.head? = some n →
      ∀ o, oldHist.head? = some o → n.createdAt < o.scrapedAt)
    (h7 : ∀ c, prev = some c → 0 < c ∧ ∃ o, oldHist.head? = some o ∧ o.price = c) :
    targetDecision
      { id := 1, name := "item", currentPrice := prev, targetPrice := some target,
        isActive := true, lastChecked := lc } p sd
      = (decide (p ≤ target) && specCrossing prev target && armed) := by
  unfold targetDecision
  dsimp only
  by_cases hpt : target < p
  · rw [if_pos hpt]
    have hd : decide (p ≤ target) = false := by simp [not_le.mpr hpt]
    simp [hd]
  · rw [if_neg hpt]
    have hple : p ≤ target := not_lt.mp hpt
    have hdp : decide (p ≤ target) = true := by simp [hple]
    have hplt : decide (target < p) = false := by simp [hpt]
    have hscan : prev ≠ none → ∀ n, tg.head? = some n →
        (((sd.history.filter
            (fun o => o.productId == 1 && decide (n.createdAt < o.scrapedAt))).take 10).any
          (fun o => decide (target < o.price)) = armed) := by
      intro hprevne n hn
      have hnmem : n ∈ tg := by
        cases htg : tg with
        | nil => rw [htg] at hn; exact absurd hn (by simp)
        | cons a rest =>
          rw [htg] at hn
          simp only [List.head?_cons, Option.some.injEq] at hn
          simp [← hn]
      have hnew : (((1 : ℕ) == (1 : ℕ)) && decide (n.createdAt < t)) = true := by
        simp [h4a n hnmem]
      rw [hh, List.filter_cons]
      simp only [hnew, if_true]
      cases harm : armed with
      | true =>
        obtain ⟨c, hc, htc⟩ := h5 harm (by
          intro habs; rw [habs] at hn; exact absurd hn (by simp))
        obtain ⟨hcpos, o0, ho, hoprice⟩ := h7 c hc
        cases hold : oldHist with
        | nil => rw [hold] at ho; exact absurd ho (by simp)
        | cons o1 rest1 =>
          have ho1eq : o1 = o0 := by
            rw [hold] at ho
            simpa using ho
          have hmem1 : o0 ∈ oldHist := by
            rw [hold, ho1eq]
            simp
          have hsct : o0.scrapedAt < t ∧ o0.productId = 1 := h1 o0 hmem1
          have hno1 : n.createdAt < o0.scrapedAt := h6 harm n hn o0 ho
          have hstep : List.filter
              (fun o => o.productId == 1 && decide (n.createdAt < o.scrapedAt)) (o1 :: rest1)
              = o0 :: List.filter
              (fun o => o.productId == 1 && decide (n.createdAt < o.scrapedAt)) rest1 := by
            rw [ho1eq, List.filter_cons]
            simp [hsct.2, hno1]
          rw [hstep]
          refine any_take_second _ 10 (by norm_num) _ _ _ ?_
          simp [hoprice, htc]
      | false =>
        have hfull := h4b n hn
        rw [harm] at hfull
        have hfalse : (oldHist.filter
            (fun o => o.productId == 1 && decide (n.createdAt < o.scrapedAt))).any
            (fun o => decide (target < o.price)) = false := by
          rcases Bool.eq_false_or_eq_true ((oldHist.filter
            (fun o => o.productId == 1 && decide (n.createdAt < o.scrapedAt))).any
            (fun o => decide (target < o.price))) with h | h
          · exact absurd (hfull.mpr h) (by simp)
          · exact h
        refine any_take_cons_false _ 10 _ _ ?_ hfalse
        simp [hplt]
    cases hprev : prev with
    | none =>
      have htg : tg = [] := h2 hprev
      rw [hfil, htg]
      simp [h3 htg, hdp, specCrossing]
    | some c =>
      have hcpos := (h7 c hprev).1
      have hc0 : (c == (0 : ℚ)) = false := by
        simp only [beq_eq_false_iff_ne, ne_eq]
        intro habs
        rw [habs] at hcpos
        exact lt_irrefl 0 hcpos
      simp only [hc0, Bool.false_or]
      by_cases hcross : target < c
      · have hcr : decide (target < c) = true := by simp [hcross]
        rw [hcr]
        simp only [Bool.not_true, decide_True, if_false]
        rw [hfil]
        cases htg : tg with
        | nil =>
          have harmed := h3 htg
          simp [harmed, hdp, specCrossing, hcross]
        | cons n0 rest =>
          have hn0 : tg.head? = some n0 := by rw [htg]; simp
          have hs := hscan (by rw [hprev]; simp) n0 hn0
          rw [← htg]
          rw [head?_take 5 tg (by norm_num), hn0]
          simp only [specCrossing, hdp, hcr, Bool.true_and]
          exact hs
      · have hcr : decide (target < c) = false := by simp [hcross]
        rw [hcr]
        simp [specCrossing, hcross]

/-- Invariant preservation, stated over the components of the post-check
store: a fresh observation at the old clock instant, a possible fresh
target_reached row stamped strictly between observation and new clock, and
the updated product row. -/
lemma dedupInv_step_core (target p : ℚ) (prev : Option ℚ) (armed : Bool) (s s5 : SysState)
    (hInv : DedupInv target s prev armed) (hp : 0 < p)
    (e : Bool) (he : e = (decide (p ≤ target) && specCrossing prev target && armed))
    (lc5 : Option ℕ)
    (hprod5 : s5.products =
      [{ id := 1, name := "item", currentPrice := some p, targetPrice := some target,
         isActive := true, lastChecked := lc5 }])
    (cur : Json) (av : Bool)
    (hhist5 : s5.history = (⟨1, p, cur, av, s.clock⟩ : ObsRow) :: s.history)
    (hclock : s.clock < s5.clock)
    (htgT : e = true → ∃ nt, tgOf s5 = nt :: tgOf s ∧
      s.clock < nt.createdAt ∧ nt.createdAt < s5.clock)
    (htgF : e = false → tgOf s5 = tgOf s) :
    DedupInv target s5 (some p)
      (if e = true then false else armed || decide (target < p)) := by
  obtain ⟨⟨lc, hprod⟩, h2, h3, h4, h5, h6, h7, h8, h9⟩ := hInv
  refine ⟨⟨lc5, hprod5⟩, ?_, ?_, ?_, ?_, ?_, ?_, ?_, ?_⟩
  · intro habs; cases habs
  · intro c hc
    obtain rfl : p = c := by simpa using hc
    exact ⟨hp, ⟨1, p, cur, av, s.clock⟩, by rw [hhist5]; simp, rfl⟩
  · intro o ho
    rw [hhist5] at ho
    rcases List.mem_cons.mp ho with rfl | ho2
    · exact ⟨hclock, rfl⟩
    · obtain ⟨hlt, hpid⟩ := h4 o ho2
      exact ⟨lt_trans hlt hclock, hpid⟩
  · intro n hn
    cases he2 : e with
    | true =>
      obtain ⟨nt, htg, hlo, hhi⟩ := htgT he2
      rw [htg] at hn
      rcases List.mem_cons.mp hn with rfl | hn2
      · exact hhi
      · exact lt_trans (h5 n hn2) hclock
    | false =>
      rw [htgF he2] at hn
      exact lt_trans (h5 n hn) hclock
  · intro htgnil
    cases he2 : e with
    | true =>
      obtain ⟨nt, htg, _, _⟩ := htgT he2
      rw [htg] at htgnil
      exact absurd htgnil (by simp)
    | false =>
      rw [htgF he2] at htgnil
      simp [he2, h6 htgnil]
  · intro n hn
    cases he2 : e with
    | true =>
      obtain ⟨nt, htg, hlo, hhi⟩ := htgT he2
      rw [htg] at hn
      simp only [List.head?_cons, Option.some.injEq] at hn
      rw [hn] at hlo hhi
      have hfilnil : s5.history.filter
          (fun o => o.productId == 1 && decide (n.createdAt < o.scrapedAt)) = [] := by
        rw [List.filter_eq_nil_iff]
        intro o ho
        rw [hhist5] at ho
        rcases List.mem_cons.mp ho with rfl | ho2
        · have hlt : ¬ (n.createdAt < s.clock) := by omega
          simp [hlt]
        · have h41 := (h4 o ho2).1
          have hlt : ¬ (n.createdAt < o.scrapedAt) := by omega
          simp [hlt]
      rw [hfilnil]
      simp [he2]
    | false =>
      rw [htgF he2] at hn
      have hiff := h7 n hn
      have hnclk : n.createdAt < s.clock := h5 n (by
        cases htg : tgOf s with
        | nil => rw [htg] at hn; exact absurd hn (by simp)
        | cons a rest =>
          rw [htg] at hn
          simp only [List.head?_cons, Option.some.injEq] at hn
          simp [← hn])
      rw [hhist5, List.filter_cons]
      have hcond : (((1 : ℕ) == (1 : ℕ)) && decide (n.createdAt < s.clock)) = true := by
        simp [hnclk]
      simp only [hcond, if_true, List.any_cons]
      rw [if_neg (by simp : ¬ (false = true))]
      rcases Bool.eq_false_or_eq_true armed with harm | harm <;>
        rw [harm] at hiff ⊢
      · have hany := hiff.mp rfl
        rw [hany]
        simp
      · have hany : (List.filter
            (fun o => o.productId == 1 && decide (n.createdAt < o.scrapedAt)) s.history).any
            (fun o => decide (target < o.price)) = false := by
          rcases Bool.eq_false_or_eq_true ((List.filter
            (fun o => o.productId == 1 && decide (n.createdAt < o.scrapedAt)) s.history).any
            (fun o => decide (target < o.price))) with h | h
          · exact absurd (hiff.mpr h) (by simp)
          · exact h
        rw [hany]
        simp
  · intro harm htgne
    cases he2 : e with
    | true => rw [he2] at harm; simp at harm
    | false =>
      rw [he2] at harm
      rw [if_neg (by simp : ¬ (false = true))] at harm
      rcases Bool.eq_false_or_eq_true (decide (target < p)) with hq | hq
      · exact ⟨p, rfl, by simpa using hq⟩
      · have harm2 : armed = true := by
          rcases Bool.eq_false_or_eq_true armed with h | h
          · exact h
          · rw [h, hq] at harm; exact absurd harm (by simp)
        obtain ⟨c, hc, htc⟩ := h8 harm2 (by
          intro habs
          rw [htgF he2, habs] at htgne
          exact htgne rfl)
        have hcross : specCrossing prev target = true := by
          rw [hc]; simp [specCrossing, htc]
        have hple : p ≤ target := by
          by_contra habs
          have hq2 : decide (target < p) = true := by simp [lt_of_not_le habs]
          rw [hq2] at hq
          exact absurd hq (by simp)
        rw [hcross, harm2] at he
        simp only [Bool.and_true] at he
        rw [he2] at he
        have hdp : decide (p ≤ target) = true := by simp [hple]
        rw [hdp] at he
        exact absurd he.symm (by simp)
  · intro harm n hn o ho
    cases he2 : e with
    | true => rw [he2] at harm; simp at harm
    | false =>
      rw [htgF he2] at hn
      have hnclk : n.createdAt < s.clock := h5 n (by
        cases htg : tgOf s with
        | nil => rw [htg] at hn; exact absurd hn (by simp)
        | cons a rest =>
          rw [htg] at hn
          simp only [List.head?_cons, Option.some.injEq] at hn
          simp [← hn])
      rw [hhist5] at ho
      simp only [List.head?_cons, Option.some.injEq] at ho
      rw [← ho]
      exact hnclk

/-- One closed-loop check simulates one step of the claim machine. -/
lemma check_step_sim (target p : ℚ) (s : SysState) (prev : Option ℚ) (armed : Bool)
    (hInv : DedupInv target s prev armed) (hp : 0 < p) :
    ((checkProductPrice s 1 (Except.ok ⟨some p, .str "AUD", true⟩)).2.contains
        NotifType.target_reached
      = (decide (p ≤ target) && specCrossing prev target && armed))
    ∧ DedupInv target (checkProductPrice s 1 (Except.ok ⟨some p, .str "AUD", true⟩)).1 (some p)
        (if (decide (p ≤ target) && specCrossing prev target && armed) = true then false
         else armed || decide (target < p)) := by
  obtain ⟨lc, hprod⟩ := hInv.1
  have hfind : s.products.find? (fun x => x.id == 1) =
      some ⟨1, "item", prev, some target, true, lc⟩ := by
    rw [hprod]
    rfl
  have hchar : ∀ sd : SysState,
      sd.history = (⟨1, p, .str "AUD", true, s.clock⟩ : ObsRow) :: s.history →
      sd.notifs.filter
        (fun n => n.productId == (1 : ℕ) && n.ntype == NotifType.target_reached) = tgOf s →
      targetDecision
        { id := 1, name := "item", currentPrice := prev, targetPrice := some target,
          isActive := true, lastChecked := lc } p sd
        = (decide (p ≤ target) && specCrossing prev target && armed) := by
    intro sd hh hfil
    exact targetDecision_char target p prev armed lc sd s.clock s.history _ _ (tgOf s)
      hh hfil hInv.2.2.2.1 (fun h => (hInv.2.1 h).1) hInv.2.2.2.2.2.1
      hInv.2.2.2.2.1 hInv.2.2.2.2.2.2.1 hInv.2.2.2.2.2.2.2.1 hInv.2.2.2.2.2.2.2.2
      hInv.2.2.1
  cases prev with
  | none =>
    have htgnil := (hInv.2.1 rfl).1
    simp only [checkProductPrice, hfind]
    rw [hchar _ (by rfl) (by rfl)]
    cases hF : (decide (p ≤ target) && specCrossing none target && armed) with
    | true =>
      constructor
      · rfl
      · refine dedupInv_step_core target p none armed s _ hInv hp true hF.symm
          (some (s.clock + 1)) (by rw [hprod]; rfl) (.str "AUD") true (by rfl)
          (by simp [createNotification] <;> omega) ?_ (by intro h; cases h)
        intro _
        refine ⟨⟨s.nextNotifId, 1, .target_reached,
          .targetReached "item" p ((some target).getD 0), false, none, s.clock + 1⟩,
          ?_, by simp, by simp [createNotification]⟩
        simp [tgOf, createNotification]
    | false =>
      constructor
      · rfl
      · refine dedupInv_step_core target p none armed s _ hInv hp false hF.symm
          (some (s.clock + 1)) (by rw [hprod]; rfl) (.str "AUD") true (by rfl)
          (by simp [createNotification] <;> omega) (by intro h; cases h) ?_
        intro _
        simp [tgOf, createNotification]
  | some c =>
    simp only [checkProductPrice, hfind]
    by_cases hdrop : p < c
    · rw [if_pos hdrop]
      rw [hchar _ (by rfl) (by simp [tgOf, createNotification])]
      cases hF : (decide (p ≤ target) && specCrossing (some c) target && armed) with
      | true =>
        constructor
        · rfl
        · refine dedupInv_step_core target p (some c) armed s _ hInv hp true hF.symm
            (some (s.clock + 1)) (by rw [hprod]; rfl) (.str "AUD") true (by rfl)
            (by simp [createNotification] <;> omega) ?_ (by intro h; cases h)
          intro _
          refine ⟨⟨s.nextNotifId + 1, 1, .target_reached,
            .targetReached "item" p ((some target).getD 0), false, none, s.clock + 2⟩,
            ?_, by simp, by simp [createNotification]⟩
          simp [tgOf, createNotification]
      | false =>
        constructor
        · rfl
        · refine dedupInv_step_core target p (some c) armed s _ hInv hp false hF.symm
            (some (s.clock + 1)) (by rw [hprod]; rfl) (.str "AUD") true (by rfl)
            (by simp [createNotification] <;> omega) (by intro h; cases h) ?_
          intro _
          simp [tgOf, createNotification]
    · rw [if_neg hdrop]
      rw [hchar _ (by rfl) (by rfl)]
      cases hF : (decide (p ≤ target) && specCrossing (some c) target && armed) with
      | true =>
        constructor
        · rfl
        · refine dedupInv_step_core target p (some c) armed s _ hInv hp true hF.symm
            (some (s.clock + 1)) (by rw [hprod]; rfl) (.str "AUD") true (by rfl)
            (by simp [createNotification] <;> omega) ?_ (by intro h; cases h)
          intro _
          refine ⟨⟨s.nextNotifId, 1, .target_reached,
            .targetReached "item" p ((some target).getD 0), false, none, s.clock + 1⟩,
            ?_, by simp, by simp [createNotification]⟩
          simp [tgOf, createNotification]
      | false =>
        constructor
        · rfl
        · refine dedupInv_step_core target p (some c) armed s _ hInv hp false hF.symm
            (some (s.clock + 1)) (by rw [hprod]; rfl) (.str "AUD") true (by rfl)
            (by simp [createNotification] <;> omega) (by intro h; cases h) ?_
          intro _
          simp [tgOf, createNotification]

lemma emitsAux_eq_spec (target : ℚ) :
    ∀ (ps : List ℚ) (s : SysState) (prev : Option ℚ) (armed : Bool),
      DedupInv target s prev armed → (∀ p ∈ ps, 0 < p) →
        emitsAux s ps = specEmitsAux target prev armed ps := by
  intro ps
  induction ps with
  | nil => intros; rfl
  | cons p rest ih =>
    intro s prev armed hInv hpos
    have hstep := check_step_sim target p s prev armed hInv (hpos p (by simp))
    cases hout : checkProductPrice s 1 (Except.ok ⟨some p, .str "AUD", true⟩) with
    | mk s1 created =>
      rw [hout] at hstep
      simp only [emitsAux, specEmitsAux, hout]
      rw [hstep.1]
      refine congrArg _ ?_
      refine ih s1 (some p) _ hstep.2 (fun q hq => hpos q (by simp [hq]))

/-- C1.  On every closed-loop run of the per-monitor check with a target
price set and positive observed prices, a target_reached event fires at a
check exactly when the new price is at or below target, the check is
threshold-crossing (no prior current price, or prior current price above
target), and, whenever a previous target_reached event exists, some
observation recorded after that event exceeded the target.  On target 100,
the sequence 150, 90, 95, 80 fires exactly one event (at 90), and the
sequence 150, 90, 120, 80 fires exactly two (at 90 and at 80). -/
theorem target_reached_dedup :
    (∀ (target : ℚ) (ps : List ℚ), (∀ p ∈ ps, 0 < p) →
      emits target ps = specEmits target ps)
    ∧ emits 100 [150, 90, 95, 80] = [false, true, false, false]
    ∧ emits 100 [150, 90, 120, 80] = [false, true, false, true] := by
  refine ⟨?_, by decide, by decide⟩
  intro target ps hpos
  exact emitsAux_eq_spec target ps _ none true (dedupInv_init target) hpos

/-- Witness for C1: the general equivalence applied to the first example
sequence. -/
theorem target_reached_dedup_witness :
    emits 100 [150, 90, 95, 80] = specEmits 100 [150, 90, 95, 80] :=
  target_reached_dedup.1 100 [150, 90, 95, 80] (by norm_num)

/-- Witness for C3: the bounds guarantee applied at the concrete extraction
of 1,237.00. -/
theorem selector_regex_candidate_rule_witness :
    0 < (1237 : ℚ) ∧ (1237 : ℚ) < 1000000 :=
  selector_regex_candidate_rule.2.2.1 ["1,237.00"] 1237
    selector_regex_candidate_rule.2.2.2.2.1
